import Mathlib

/-!
# Portfolio project manager (`assets/js/projects.js`)

A shallow embedding of the `ProjectManager` class and of the free functions
`createCategoryFilters` and `setupSearch`, and the properties of the
specification that are settled on it.

Modelling decisions.

* A property of a record read by the code is a `JSField`: the property is
  missing (`undefined`), holds `null`, or holds a value of the type the data
  model gives it. Other JavaScript values (numbers, nested objects) are outside
  the model.
* A string is a Lean `String`, a sequence of Unicode scalar values;
  `String.prototype.includes` is the contiguous substring test. On such
  strings the test on UTF-16 code units and the test on characters agree, a
  match starting and ending at character boundaries.
* `String.prototype.toLowerCase` is the host's Unicode case folding. It is not
  part of the program, so every definition that calls it takes it as the
  argument `toLowerCase`; the theorems hold for every such function.
* A thrown exception is the `error` result of `Except JSError`.
* The document is the list of its elements that carry a (non-empty) `id`, each
  with the string last assigned to its `innerHTML`; the elements of class
  `project-card` that `filterProjects` walks are a list of their own.
-/

namespace Portfolio

/-! ## Values -/

/-- Exceptions the program can meet: a `TypeError` (reading a property or
calling a method of `undefined`/`null`, a rejected `fetch`), the `SyntaxError`
of `response.json()`, and the `Error` thrown by `loadData` on a bad status. -/
inductive JSError where
  | typeError
  | syntaxError
  | error (message : String)
deriving DecidableEq, Repr

deriving instance DecidableEq for Except

/-- Content of a property of a record. -/
inductive JSField (α : Type) where
  | undefined
  | null
  | val (a : α)
deriving DecidableEq, Repr

/-- ToBoolean of a string-valued property: `undefined`, `null` and the empty
string are falsy. -/
def JSField.truthyStr : JSField String → Bool
  | .val s => s != ""
  | _ => false

/-- ToBoolean of a boolean-valued property. -/
def JSField.truthyBool : JSField Bool → Bool
  | .val b => b
  | _ => false

/-- ToString of a string-valued property, as a template literal applies it. -/
def JSField.toStr : JSField String → String
  | .undefined => "undefined"
  | .null => "null"
  | .val s => s

/-- Project record of the catalog. -/
structure Project where
  id : JSField String
  title : JSField String
  description : JSField String
  technologies : JSField (List String)
  image : JSField String
  demo_url : JSField String
  github_url : JSField String
  featured : JSField Bool
  date : JSField String
  category : JSField String
deriving DecidableEq, Repr

/-- State of a `ProjectManager` instance: the field `this.projects`. -/
structure ProjectManager where
  projects : JSField (List Project)
deriving DecidableEq, Repr

/-! ## Built-in string operations -/

/-- Whether `needle` occurs in `hay` at some position, on character lists. -/
def includesChars : List Char → List Char → Bool
  | [], needle => needle.isEmpty
  | c :: hay, needle => needle.isPrefixOf (c :: hay) || includesChars hay needle

/-- `hay.includes(needle)`. -/
def includes (hay needle : String) : Bool :=
  includesChars hay.data needle.data

/-- `x.toLowerCase()` for a property `x`: a `TypeError` unless `x` holds a
string. -/
def JSField.lower (toLowerCase : String → String) : JSField String → Except JSError String
  | .val s => .ok (toLowerCase s)
  | _ => .error .typeError

/-- ASCII case folding, an instance of `toLowerCase` used to evaluate the
definitions on concrete inputs. -/
def asciiLower (s : String) : String :=
  ⟨s.data.map Char.toLower⟩

/-! ## `searchProjects` -/

/-- The callback of `filter` in `searchProjects`: the three disjuncts are
evaluated left to right and evaluation stops at the first that holds. -/
def searchPredicate (toLowerCase : String → String) (lowercaseQuery : String)
    (project : Project) : Except JSError Bool :=
  match project.title.lower toLowerCase with
  | .error e => .error e
  | .ok title =>
    if includes title lowercaseQuery then .ok true
    else
      match project.description.lower toLowerCase with
      | .error e => .error e
      | .ok description =>
        if includes description lowercaseQuery then .ok true
        else
          match project.technologies with
          | .val technologies =>
            .ok (technologies.any fun tech => includes (toLowerCase tech) lowercaseQuery)
          | _ => .error .typeError

/-- `Array.prototype.filter` with a callback that may throw: the elements are
visited in order and the first exception ends the call. -/
def filterE {α : Type} (f : α → Except JSError Bool) : List α → Except JSError (List α)
  | [] => .ok []
  | x :: xs =>
    match f x with
    | .error e => .error e
    | .ok keep =>
      match filterE f xs with
      | .error e => .error e
      | .ok rest => .ok (if keep then x :: rest else rest)

/-- `searchProjects(query)`. -/
def searchProjects (toLowerCase : String → String) (self : ProjectManager)
    (query : String) : Except JSError (List Project) :=
  let lowercaseQuery := toLowerCase query
  match self.projects with
  | .val projects => filterE (searchPredicate toLowerCase lowercaseQuery) projects
  | _ => .error .typeError

/-! ## The document -/

/-- Elements of the document that carry an `id`, in document order, each with
the string last assigned to its `innerHTML`. -/
abbrev Dom := List (String × String)

/-- `document.getElementById(id)`: whether such an element exists. -/
def hasElement (dom : Dom) (id : String) : Bool :=
  dom.any fun e => e.1 == id

/-- The `innerHTML` of the element `document.getElementById(id)`, if any. -/
def innerHTML (dom : Dom) (id : String) : Option String :=
  (dom.find? fun e => e.1 == id).map Prod.snd

/-- The assignment `document.getElementById(id).innerHTML = html`: the first
element with that `id` receives `html`. -/
def setInnerHTML (id html : String) : Dom → Dom
  | [] => []
  | e :: rest => if e.1 == id then (e.1, html) :: rest else e :: setInnerHTML id html rest

/-! ## `createProjectCard` -/

/-- `Array.prototype.map` with a callback that may throw. -/
def mapE {α β : Type} (f : α → Except JSError β) : List α → Except JSError (List β)
  | [] => .ok []
  | x :: xs =>
    match f x with
    | .error e => .error e
    | .ok y =>
      match mapE f xs with
      | .error e => .error e
      | .ok ys => .ok (y :: ys)

/-- `parts.join('')`. -/
def join (parts : List String) : String :=
  parts.foldl (· ++ ·) ""

/-- The local constant `imageHtml` of `createProjectCard`. -/
def imageHtml (project : Project) : String :=
  if project.image.truthyStr then
    "<img src=\"" ++ project.image.toStr ++ "\" alt=\"" ++ project.title.toStr ++
      "\" style=\"width: 100%; height: 200px; object-fit: cover; border-radius: 8px;\">"
  else
    "<div class=\"project-image\"><i class=\"fas fa-code\"></i></div>"

/-- The anchor of the demo link for the address `url`. -/
def demoAnchor (url : String) : String :=
  "<a href=\"" ++ url ++
    "\" target=\"_blank\" class=\"project-link\">\n                 <i class=\"fas fa-external-link-alt\"></i> Démo\n               </a>"

/-- The anchor of the repository link for the address `url`. -/
def githubAnchor (url : String) : String :=
  "<a href=\"" ++ url ++
    "\" target=\"_blank\" class=\"project-link\">\n                 <i class=\"fab fa-github\"></i> Code\n               </a>"

/-- The local constant `demoLink` of `createProjectCard`. -/
def demoLink (project : Project) : String :=
  if project.demo_url.truthyStr then demoAnchor project.demo_url.toStr else ""

/-- The local constant `githubLink` of `createProjectCard`. -/
def githubLink (project : Project) : String :=
  if project.github_url.truthyStr then githubAnchor project.github_url.toStr else ""

/-- The callback of `technologies.map` in `createProjectCard`. -/
def techTag (tech : String) : String :=
  "<span class=\"tech-tag\">" ++ tech ++ "</span>"

/-- The template literal returned by `createProjectCard`, as a function of the
seven values interpolated into it. -/
def cardTemplate (category image title description tags demo github : String) : String :=
  "\n            <div class=\"project-card\" data-category=\"" ++ category ++
  "\">\n                " ++ image ++
  "\n                <h3 class=\"project-title\">" ++ title ++
  "</h3>\n                <p class=\"project-description\">" ++ description ++
  "</p>\n                <div class=\"project-tech\">\n                    " ++ tags ++
  "\n                </div>\n                <div class=\"project-links\">\n                    " ++ demo ++
  "\n                    " ++ github ++
  "\n                </div>\n            </div>\n        "

/-- `createProjectCard(project)`: `project.technologies.map` is a `TypeError`
unless `technologies` holds a list. -/
def createProjectCard (project : Project) : Except JSError String :=
  match project.technologies with
  | .val technologies =>
    .ok (cardTemplate project.category.toStr (imageHtml project) project.title.toStr
      project.description.toStr (join (technologies.map techTag))
      (demoLink project) (githubLink project))
  | _ => .error .typeError

/-! ## Rendering -/

/-- What a method can read and write: the manager and the document. -/
structure World where
  manager : ProjectManager
  dom : Dom
deriving DecidableEq, Repr

/-- `container.innerHTML = html` for the element with the given `id`. -/
def World.assign (w : World) (id html : String) : World :=
  { w with dom := setInnerHTML id html w.dom }

/-- `renderFeaturedProjects()`. The container is looked up first; the catalog
is read only when it exists. An exception leaves the world as it was, the
assignment being the last step. -/
def renderFeaturedProjects (w : World) : Except JSError World :=
  if !hasElement w.dom "featured-projects" then .ok w
  else
    match w.manager.projects with
    | .val projects =>
      let featuredProjects := projects.filter fun project => project.featured.truthyBool
      match mapE createProjectCard featuredProjects with
      | .error e => .error e
      | .ok cards => .ok (w.assign "featured-projects" (join cards))
    | _ => .error .typeError

/-- `renderAllProjects(containerId)`; `none` is the omitted argument, which
takes the default `'all-projects'`. -/
def renderAllProjects (containerId : Option String) (w : World) : Except JSError World :=
  let id := containerId.getD "all-projects"
  if !hasElement w.dom id then .ok w
  else
    match w.manager.projects with
    | .val projects =>
      match mapE createProjectCard projects with
      | .error e => .error e
      | .ok cards => .ok (w.assign id (join cards))
    | _ => .error .typeError

/-! ## `filterProjects` -/

/-- Element of class `project-card`: its `data-category` attribute (`none`
when the attribute is absent), its `style.display`, and the rest of it. -/
structure CardElement where
  category : Option String
  display : String
  content : String
deriving DecidableEq, Repr

/-- `filterProjects(category)` on the elements that
`document.querySelectorAll('.project-card')` returns; `none` is the omitted
argument, which takes the default `'all'`. The method does not assign
`this.projects`; the manager is returned as it is left. -/
def filterProjects (self : ProjectManager) (category : Option String)
    (cards : List CardElement) : ProjectManager × List CardElement :=
  let category := category.getD "all"
  (self, cards.map fun card =>
    if category == "all" || card.category == some category then
      { card with display := "block" }
    else
      { card with display := "none" })

/-! ## `addProject` -/

/-- State after a call that may have thrown: the world, and the exception if
there is one. -/
structure Outcome where
  world : World
  thrown : Option JSError
deriving DecidableEq, Repr

/-- `addProject(project)`: `push`, then `renderAllProjects()`, then
`renderFeaturedProjects()` when `project.featured` is truthy. What was done
before an exception stays done. -/
def addProject (project : Project) (w : World) : Outcome :=
  match w.manager.projects with
  | .val projects =>
    let w1 : World := { w with manager := { projects := .val (projects ++ [project]) } }
    match renderAllProjects none w1 with
    | .error e => { world := w1, thrown := some e }
    | .ok w2 =>
      if project.featured.truthyBool then
        match renderFeaturedProjects w2 with
        | .error e => { world := w2, thrown := some e }
        | .ok w3 => { world := w3, thrown := none }
      else { world := w2, thrown := none }
  | _ => { world := w, thrown := some .typeError }

/-! ## `loadData` -/

/-- The value `data` that `response.json()` resolves to. -/
inductive Body where
  /-- JSON `null`. -/
  | null
  /-- A string, number, boolean or array: it has no property `projects`. -/
  | scalar
  /-- An object, with the content of its property `projects`. -/
  | object (projects : JSField (List Project))
deriving DecidableEq, Repr

/-- `data.projects`. -/
def Body.projects : Body → Except JSError (JSField (List Project))
  | .null => .error .typeError
  | .scalar => .ok .undefined
  | .object projects => .ok projects

/-- The response `fetch` resolves to: its `ok` flag and the result of
`response.json()`. -/
structure Response where
  ok : Bool
  json : Except JSError Body

/-- How `fetch('assets/data/projects.json')` settles. -/
inductive FetchOutcome where
  | rejected (reason : JSError)
  | resolved (response : Response)

/-- The record of the `catch` block of `loadData`. -/
def fallbackProject : Project :=
  { id := .val "projet-demo"
    title := .val "Projet de démonstration"
    description := .val "Un projet exemple pour démontrer le portfolio."
    technologies := .val ["HTML", "CSS", "JavaScript"]
    image := .null
    demo_url := .val "#"
    github_url := .val "#"
    featured := .val true
    date := .val "2024-01-01"
    category := .val "Frontend" }

/-- The `try` block of `loadData`: the value assigned to `this.projects`, or
the exception that leaves the block. -/
def loadDataTry (fetched : FetchOutcome) : Except JSError (JSField (List Project)) :=
  match fetched with
  | .rejected reason => .error reason
  | .resolved response =>
    if !response.ok then .error (.error "Erreur lors du chargement des données")
    else
      match response.json with
      | .error e => .error e
      | .ok data => data.projects

/-- `loadData()`, given how the fetch settles. -/
def loadData (fetched : FetchOutcome) (self : ProjectManager) : Except JSError ProjectManager :=
  match loadDataTry fetched with
  | .ok projects => .ok { self with projects := projects }
  | .error _ => .ok { self with projects := .val [fallbackProject] }

/-! ## `createCategoryFilters` and `setupSearch` -/

/-- `Set.prototype.add`: a value already in the set is not added again. -/
def setAdd {α : Type} [DecidableEq α] (set : List α) (value : α) : List α :=
  if value ∈ set then set else set ++ [value]

/-- `new Set(values)`, as the list of its elements in insertion order. -/
def newSet {α : Type} [DecidableEq α] (values : List α) : List α :=
  values.foldl setAdd []

/-- The local constant `categories` of `createCategoryFilters`. -/
def categories (projectManager : ProjectManager) : Except JSError (List (JSField String)) :=
  match projectManager.projects with
  | .val projects => .ok (.val "all" :: newSet (projects.map fun p => p.category))
  | _ => .error .typeError

/-- The callback of `categories.map` in `createCategoryFilters`. -/
def filterButton (category : JSField String) : String :=
  "\n            <button class=\"filter-btn " ++
  (if category = .val "all" then "active" else "") ++
  "\" \n                    onclick=\"filterProjectsByCategory('" ++ category.toStr ++
  "')\">\n                " ++
  (if category = .val "all" then "Tous" else category.toStr) ++
  "\n            </button>\n        "

/-- `createCategoryFilters()`; `w.manager` is the global `projectManager`. -/
def createCategoryFilters (w : World) : Except JSError World :=
  match categories w.manager with
  | .error e => .error e
  | .ok categories =>
    if hasElement w.dom "category-filters" then
      .ok (w.assign "category-filters" (join (categories.map filterButton)))
    else .ok w

/-- The `input` listener that `setupSearch` registers, called with
`e.target.value`; `w.manager` is the global `projectManager`. -/
def searchListener (toLowerCase : String → String) (value : String) (w : World) :
    Except JSError World :=
  match searchProjects toLowerCase w.manager value with
  | .error e => .error e
  | .ok results =>
    if hasElement w.dom "all-projects" then
      match mapE createProjectCard results with
      | .error e => .error e
      | .ok cards => .ok (w.assign "all-projects" (join cards))
    else .ok w

/-! ## Definitions that follow the specification -/

/-- The specification's "`a` is a substring of `b`": the characters of `a`
occur in `b` contiguously and in order. -/
def IsSubstring (a b : String) : Prop :=
  a.data <:+: b.data

instance (a b : String) : Decidable (IsSubstring a b) :=
  inferInstanceAs (Decidable (a.data <:+: b.data))

/-- Well-shaped record: `title` and `description` hold strings and
`technologies` holds a list of strings. -/
def Project.wellShaped (r : Project) : Bool :=
  match r.title, r.description, r.technologies with
  | .val _, .val _, .val _ => true
  | _, _, _ => false

/-- The match condition of the specification's `search`, for the folding
function `lowercase`: the folded query is a substring of the folded title, or
of the folded description, or of some folded technology entry. -/
def Matches (lowercase : String → String) (q : String) (r : Project) : Prop :=
  match r.title, r.description, r.technologies with
  | .val title, .val description, .val technologies =>
    IsSubstring (lowercase q) (lowercase title) ∨
    IsSubstring (lowercase q) (lowercase description) ∨
    ∃ t ∈ technologies, IsSubstring (lowercase q) (lowercase t)
  | _, _, _ => False

instance (lowercase : String → String) (q : String) (r : Project) :
    Decidable (Matches lowercase q r) := by
  unfold Matches
  split <;> infer_instance

/-- The specification's "distinct values in order of first occurrence": each
value is kept where it is first met and dropped from the rest of the list. -/
def firstOccurrences {α : Type} [DecidableEq α] : List α → List α
  | [] => []
  | x :: xs => x :: (firstOccurrences xs).filter fun y => decide (y ≠ x)

/-! ## The example of the specification -/

/-- Record `a` of the end-to-end example. -/
def recordA : Project :=
  { id := .val "a", title := .val "Foo Bar", description := .val "x"
    technologies := .val ["JS"], image := .undefined, demo_url := .undefined
    github_url := .undefined, featured := .val true, date := .undefined
    category := .val "Frontend" }

/-- Record `b` of the end-to-end example. -/
def recordB : Project :=
  { id := .val "b", title := .val "Baz", description := .val "y"
    technologies := .val ["Go"], image := .undefined, demo_url := .undefined
    github_url := .undefined, featured := .val false, date := .undefined
    category := .val "Backend" }

/-- Catalog of the end-to-end example. -/
def exampleCatalog : List Project := [recordA, recordB]

/-- Record whose title, description and technologies are all empty. -/
def blankRecord : Project :=
  { id := .val "c", title := .val "", description := .val ""
    technologies := .val [], image := .undefined, demo_url := .undefined
    github_url := .undefined, featured := .undefined, date := .undefined
    category := .undefined }

/-- Record `a` with the empty string in both address fields. -/
def emptyUrlRecord : Project :=
  { recordA with demo_url := .val "", github_url := .val "" }

/-- Record `a` with a demo address only. -/
def onlyDemoRecord : Project :=
  { recordA with demo_url := .val "https://demo.example" }

/-- Record `a` with a repository address only. -/
def onlyRepoRecord : Project :=
  { recordA with github_url := .val "https://code.example" }

/-- Record `a` without the property `technologies`. -/
def noTechnologiesRecord : Project :=
  { recordA with technologies := .undefined }

/-- Record that holds a list of technologies and nothing else. -/
def bareRecord : Project :=
  { id := .undefined, title := .undefined, description := .undefined
    technologies := .val ["JS"], image := .undefined, demo_url := .undefined
    github_url := .undefined, featured := .undefined, date := .undefined
    category := .undefined }

/-- Record with a title and a list of technologies and no `description`. -/
def noDescriptionRecord : Project :=
  { id := .val "d", title := .val "Foo", description := .undefined
    technologies := .val ["JS"], image := .undefined, demo_url := .undefined
    github_url := .undefined, featured := .val false, date := .undefined
    category := .val "Frontend" }

/-- Record `a` filed under the category `"all"`. -/
def allCategoryRecord : Project :=
  { recordA with category := .val "all" }

/-! ## Lemmas on the built-in operations -/

theorem includesChars_iff (hay needle : List Char) :
    includesChars hay needle = true ↔ needle <:+: hay := by
  induction hay with
  | nil =>
    cases needle <;> simp [includesChars]
  | cons c hay ih =>
    rw [includesChars, Bool.or_eq_true, ih, List.isPrefixOf_iff_prefix, List.infix_cons_iff]

theorem includes_iff (hay needle : String) :
    includes hay needle = true ↔ IsSubstring needle hay :=
  includesChars_iff hay.data needle.data

theorem isSubstring_empty (s : String) : IsSubstring "" s :=
  List.nil_infix

theorem IsSubstring.trans {a b c : String} (hab : IsSubstring a b) (hbc : IsSubstring b c) :
    IsSubstring a c :=
  List.IsInfix.trans hab hbc

theorem filterE_total {α : Type} (f : α → Except JSError Bool) (g : α → Bool) (xs : List α)
    (h : ∀ x ∈ xs, f x = .ok (g x)) : filterE f xs = .ok (xs.filter g) := by
  induction xs with
  | nil => rfl
  | cons x xs ih =>
    have hx := h x (List.mem_cons_self x xs)
    have hxs := ih fun y hy => h y (List.mem_cons_of_mem x hy)
    simp only [filterE, hx, hxs, List.filter_cons]

/-- On a well-shaped record the callback of `searchProjects` does not throw and
decides the match condition of the specification. -/
theorem searchPredicate_wellShaped (toLowerCase : String → String) (q : String) (r : Project)
    (h : r.wellShaped = true) :
    searchPredicate toLowerCase (toLowerCase q) r = .ok (decide (Matches toLowerCase q r)) := by
  obtain ⟨id, title, description, technologies, image, demo, github, featured, date, category⟩ := r
  cases title <;> cases description <;> cases technologies <;>
    simp [Project.wellShaped] at h
  rename_i t d ts
  simp only [searchPredicate, JSField.lower, Matches]
  by_cases h1 : includes (toLowerCase t) (toLowerCase q) = true
  · have := (includes_iff _ _).1 h1
    simp [h1, this]
  · have n1 : ¬ IsSubstring (toLowerCase q) (toLowerCase t) := fun c => h1 ((includes_iff _ _).2 c)
    by_cases h2 : includes (toLowerCase d) (toLowerCase q) = true
    · have := (includes_iff _ _).1 h2
      simp [h1, h2, this]
    · have n2 : ¬ IsSubstring (toLowerCase q) (toLowerCase d) :=
        fun c => h2 ((includes_iff _ _).2 c)
      simp only [h1, h2, n1, n2, false_or, Bool.false_eq_true, if_false]
      congr 1
      rw [Bool.eq_iff_iff, List.any_eq_true, decide_eq_true_iff]
      constructor
      · rintro ⟨tech, hm, hi⟩
        exact ⟨tech, hm, (includes_iff _ _).1 hi⟩
      · rintro ⟨tech, hm, hi⟩
        exact ⟨tech, hm, (includes_iff _ _).2 hi⟩

/-- On a catalog of well-shaped records `searchProjects` is the filter by the
match condition of the specification. -/
theorem searchProjects_eq_filter (toLowerCase : String → String) (catalog : List Project)
    (q : String) (h : ∀ r ∈ catalog, r.wellShaped = true) :
    searchProjects toLowerCase { projects := .val catalog } q =
      .ok (catalog.filter fun r => decide (Matches toLowerCase q r)) := by
  simp only [searchProjects]
  exact filterE_total _ _ catalog fun r hr => searchPredicate_wellShaped toLowerCase q r (h r hr)

theorem mapE_sublist {α β : Type} (f : α → Except JSError β) {xs ys : List α}
    (hs : xs.Sublist ys) :
    ∀ cs, mapE f ys = .ok cs → ∃ bs, mapE f xs = .ok bs ∧ bs.Sublist cs := by
  induction hs with
  | slnil =>
    intro cs h
    exact ⟨[], rfl, List.nil_sublist _⟩
  | @cons xs ys y _ ih =>
    intro cs h
    simp only [mapE] at h
    cases hy : f y with
    | error e => simp [hy] at h
    | ok c =>
      cases hys : mapE f ys with
      | error e => simp [hy, hys] at h
      | ok cs1 =>
        simp only [hy, hys, Except.ok.injEq] at h
        obtain ⟨bs, hb, hsub⟩ := ih cs1 hys
        exact ⟨bs, hb, h ▸ hsub.cons c⟩
  | @cons₂ xs ys y _ ih =>
    intro cs h
    simp only [mapE] at h
    cases hy : f y with
    | error e => simp [hy] at h
    | ok c =>
      cases hys : mapE f ys with
      | error e => simp [hy, hys] at h
      | ok cs1 =>
        simp only [hy, hys, Except.ok.injEq] at h
        obtain ⟨bs, hb, hsub⟩ := ih cs1 hys
        exact ⟨c :: bs, by simp only [mapE, hy, hb], h ▸ hsub.cons₂ c⟩

theorem mapE_ok_of_forall {α β : Type} (f : α → Except JSError β) (xs : List α)
    (h : ∀ x ∈ xs, ∃ y, f x = .ok y) :
    ∃ ys, mapE f xs = .ok ys ∧ ys.length = xs.length := by
  induction xs with
  | nil => exact ⟨[], rfl, rfl⟩
  | cons x xs ih =>
    obtain ⟨y, hy⟩ := h x (List.mem_cons_self x xs)
    obtain ⟨ys, hys, hl⟩ := ih fun z hz => h z (List.mem_cons_of_mem x hz)
    exact ⟨y :: ys, by simp only [mapE, hy, hys], by simp [hl]⟩

theorem createProjectCard_ok_iff (r : Project) :
    (∃ html, createProjectCard r = .ok html) ↔ ∃ ts, r.technologies = .val ts := by
  unfold createProjectCard
  cases r.technologies <;> simp

theorem technologies_of_wellShaped (r : Project) (h : r.wellShaped = true) :
    ∃ ts, r.technologies = .val ts := by
  unfold Project.wellShaped at h
  cases ht : r.title <;> cases hd : r.description <;> cases hts : r.technologies <;>
    simp [ht, hd, hts] at h
  exact ⟨_, rfl⟩

theorem matches_empty (toLowerCase : String → String) (hempty : toLowerCase "" = "")
    (r : Project) (h : r.wellShaped = true) : Matches toLowerCase "" r := by
  unfold Project.wellShaped at h
  unfold Matches
  cases ht : r.title <;> cases hd : r.description <;> cases hts : r.technologies <;>
    simp [ht, hd, hts] at h
  simp only
  refine Or.inl ?_
  rw [hempty]
  exact isSubstring_empty _

theorem matches_narrow (toLowerCase : String → String) (q1 q2 : String)
    (hq : IsSubstring (toLowerCase q1) (toLowerCase q2)) (r : Project)
    (h : Matches toLowerCase q2 r) : Matches toLowerCase q1 r := by
  unfold Matches at h ⊢
  split at h
  · rcases h with h | h | ⟨t, ht, h⟩
    · exact Or.inl (hq.trans h)
    · exact Or.inr (Or.inl (hq.trans h))
    · exact Or.inr (Or.inr ⟨t, ht, hq.trans h⟩)
  · exact h.elim

/-! ## Lemmas on rendering -/

theorem renderAllProjects_manager (containerId : Option String) (w w1 : World)
    (h : renderAllProjects containerId w = .ok w1) : w1.manager = w.manager := by
  unfold renderAllProjects at h
  simp only at h
  split at h
  · cases h; rfl
  · split at h
    · split at h
      · cases h
      · cases h; rfl
    · cases h

theorem renderFeaturedProjects_manager (w w1 : World)
    (h : renderFeaturedProjects w = .ok w1) : w1.manager = w.manager := by
  unfold renderFeaturedProjects at h
  simp only at h
  split at h
  · cases h; rfl
  · split at h
    · split at h
      · cases h
      · cases h; rfl
    · cases h

theorem renderAllProjects_ok (containerId : Option String) (w : World) (projects : List Project)
    (hp : w.manager.projects = .val projects)
    (ht : ∀ r ∈ projects, ∃ ts, r.technologies = .val ts) :
    ∃ cards, mapE createProjectCard projects = .ok cards ∧
      renderAllProjects containerId w =
        .ok (if hasElement w.dom (containerId.getD "all-projects")
          then w.assign (containerId.getD "all-projects") (join cards) else w) := by
  obtain ⟨cards, hc, -⟩ := mapE_ok_of_forall createProjectCard projects
    fun r hr => (createProjectCard_ok_iff r).2 (ht r hr)
  refine ⟨cards, hc, ?_⟩
  unfold renderAllProjects
  simp only [hp, hc]
  cases hasElement w.dom (containerId.getD "all-projects") <;> rfl

theorem renderFeaturedProjects_ok (w : World) (projects : List Project)
    (hp : w.manager.projects = .val projects)
    (ht : ∀ r ∈ projects, r.featured.truthyBool = true → ∃ ts, r.technologies = .val ts) :
    ∃ cards,
      mapE createProjectCard (projects.filter fun r => r.featured.truthyBool) = .ok cards ∧
      renderFeaturedProjects w =
        .ok (if hasElement w.dom "featured-projects"
          then w.assign "featured-projects" (join cards) else w) := by
  obtain ⟨cards, hc, -⟩ := mapE_ok_of_forall createProjectCard
    (projects.filter fun r => r.featured.truthyBool)
    fun r hr => (createProjectCard_ok_iff r).2
      (ht r (List.mem_of_mem_filter hr) (List.mem_filter.1 hr).2)
  refine ⟨cards, hc, ?_⟩
  unfold renderFeaturedProjects
  simp only [hp, hc]
  cases hasElement w.dom "featured-projects" <;> rfl

theorem addProject_manager (p : Project) (w : World) (projects : List Project)
    (hp : w.manager.projects = .val projects) :
    (addProject p w).world.manager = { projects := .val (projects ++ [p]) } := by
  unfold addProject
  simp only [hp]
  split
  · rfl
  · rename_i w2 h2
    have m2 := renderAllProjects_manager _ _ _ h2
    split
    · split
      · exact m2
      · rename_i w3 h3
        exact (renderFeaturedProjects_manager _ _ h3).trans m2
    · exact m2

theorem addProject_not_thrown (p : Project) (w : World) (projects : List Project)
    (hp : w.manager.projects = .val projects)
    (ht : ∀ r ∈ projects ++ [p], ∃ ts, r.technologies = .val ts) :
    (addProject p w).thrown = none := by
  unfold addProject
  simp only [hp]
  obtain ⟨cards, -, hall⟩ := renderAllProjects_ok none
    { w with manager := { projects := .val (projects ++ [p]) } } (projects ++ [p]) rfl ht
  rw [hall]
  simp only
  split
  · rename_i hf
    obtain ⟨fcards, -, hfeat⟩ := renderFeaturedProjects_ok
      (if hasElement w.dom (Option.getD none "all-projects")
        then World.assign { w with manager := { projects := .val (projects ++ [p]) } }
          (Option.getD none "all-projects") (join cards)
        else { w with manager := { projects := .val (projects ++ [p]) } })
      (projects ++ [p]) (by split <;> rfl) (fun r hr _ => ht r hr)
    rw [hfeat]
  · rfl

theorem innerHTML_setInnerHTML_same (id html : String) (dom : Dom)
    (h : hasElement dom id = true) : innerHTML (setInnerHTML id html dom) id = some html := by
  induction dom with
  | nil => simp [hasElement] at h
  | cons e rest ih =>
    simp only [setInnerHTML]
    by_cases he : (e.1 == id) = true
    · simp [he, innerHTML, List.find?_cons]
    · have hr : hasElement rest id = true := by
        simpa [hasElement, List.any_cons, he] using h
      have := ih hr
      simp only [innerHTML] at this ⊢
      simp only [he, if_false, Bool.false_eq_true, List.find?_cons]
      exact this

theorem innerHTML_setInnerHTML_other (id html : String) (dom : Dom) (id1 : String)
    (h : id1 ≠ id) : innerHTML (setInnerHTML id html dom) id1 = innerHTML dom id1 := by
  induction dom with
  | nil => rfl
  | cons e rest ih =>
    simp only [setInnerHTML]
    by_cases he : (e.1 == id) = true
    · have h1 : e.1 = id := by simpa using he
      have h2 : (e.1 == id1) = false := by
        simp only [beq_eq_false_iff_ne, ne_eq, h1]
        exact fun c => h c.symm
      simp [he, innerHTML, List.find?_cons, h2]
    · simp only [innerHTML] at ih ⊢
      simp only [he, if_false, Bool.false_eq_true, List.find?_cons]
      cases e.1 == id1
      · exact ih
      · rfl

theorem mapE_forall₂ {α β : Type} (f : α → Except JSError β) (xs : List α) :
    ∀ ys, mapE f xs = .ok ys → List.Forall₂ (fun x y => f x = .ok y) xs ys := by
  induction xs with
  | nil =>
    intro ys h
    cases h
    exact List.Forall₂.nil
  | cons x xs ih =>
    intro ys h
    simp only [mapE] at h
    cases hx : f x with
    | error e => simp [hx] at h
    | ok y =>
      cases hxs : mapE f xs with
      | error e => simp [hx, hxs] at h
      | ok ys1 =>
        simp only [hx, hxs, Except.ok.injEq] at h
        subst h
        exact List.Forall₂.cons hx (ih ys1 hxs)

theorem truthyBool_iff (f : JSField Bool) : f.truthyBool = true ↔ f = .val true := by
  cases f <;> simp [JSField.truthyBool]

/-! ## Search -/

/-- C1: on a catalog of well-shaped records `searchProjects(q)` returns the
sublist of the catalog, in catalog order, of the records for which the folded
query is a substring of the folded title, of the folded description, or of a
folded technology entry; nothing else is returned and no record is returned
more often than it stands in the catalog. -/
theorem searchProjects_returns_matching_sublist (toLowerCase : String → String)
    (catalog : List Project) (q : String) (h : ∀ r ∈ catalog, r.wellShaped = true) :
    ∃ result, searchProjects toLowerCase { projects := .val catalog } q = .ok result ∧
      result = catalog.filter (fun r => decide (Matches toLowerCase q r)) ∧
      result.Sublist catalog ∧
      (∀ r, r ∈ result ↔ r ∈ catalog ∧ Matches toLowerCase q r) ∧
      (∀ r, result.count r ≤ catalog.count r) := by
  refine ⟨_, searchProjects_eq_filter toLowerCase catalog q h, rfl, List.filter_sublist _, ?_, ?_⟩
  · intro r
    simp [List.mem_filter]
  · intro r
    exact (List.filter_sublist _).count_le r

theorem searchProjects_returns_matching_sublist_witness :
    (∀ r ∈ exampleCatalog, r.wellShaped = true) ∧
    searchProjects asciiLower { projects := .val exampleCatalog } "foo" = .ok [recordA] ∧
    searchProjects asciiLower { projects := .val exampleCatalog } "go" = .ok [recordB] ∧
    ∃ result, searchProjects asciiLower { projects := .val exampleCatalog } "foo" = .ok result ∧
      result = exampleCatalog.filter (fun r => decide (Matches asciiLower "foo" r)) ∧
      result.Sublist exampleCatalog ∧
      (∀ r, r ∈ result ↔ r ∈ exampleCatalog ∧ Matches asciiLower "foo" r) ∧
      (∀ r, result.count r ≤ exampleCatalog.count r) :=
  ⟨by decide, by decide, by decide,
    searchProjects_returns_matching_sublist asciiLower exampleCatalog "foo" (by decide)⟩

/-- C2: on a catalog of well-shaped records `searchProjects("")` returns the
whole catalog, records with empty title, description and technologies
included; the folding of the empty string is the empty string. -/
theorem searchProjects_empty_query (toLowerCase : String → String)
    (hempty : toLowerCase "" = "") (catalog : List Project)
    (h : ∀ r ∈ catalog, r.wellShaped = true) :
    searchProjects toLowerCase { projects := .val catalog } "" = .ok catalog := by
  rw [searchProjects_eq_filter toLowerCase catalog "" h]
  congr 1
  rw [List.filter_eq_self]
  intro r hr
  exact decide_eq_true (matches_empty toLowerCase hempty r (h r hr))

theorem searchProjects_empty_query_witness :
    asciiLower "" = "" ∧
    (∀ r ∈ [recordA, blankRecord, recordB], r.wellShaped = true) ∧
    searchProjects asciiLower { projects := .val [recordA, blankRecord, recordB] } "" =
      .ok [recordA, blankRecord, recordB] :=
  ⟨by decide, by decide,
    searchProjects_empty_query asciiLower (by decide) [recordA, blankRecord, recordB] (by decide)⟩

/-- C10: on a catalog of well-shaped records, when the folded `q1` is a
substring of the folded `q2`, `searchProjects(q2)` is a sublist of
`searchProjects(q1)`; every result is a sublist of `searchProjects("")` (the
folding of the empty string being empty); and the cards the search box renders
for `q2` are a sublist of those it renders for `q1`. -/
theorem searchProjects_narrowing (toLowerCase : String → String) (catalog : List Project)
    (q1 q2 : String) (dom : Dom) (h : ∀ r ∈ catalog, r.wellShaped = true)
    (hq : IsSubstring (toLowerCase q1) (toLowerCase q2)) :
    ∃ r1 r2 c1 c2,
      searchProjects toLowerCase { projects := .val catalog } q1 = .ok r1 ∧
      searchProjects toLowerCase { projects := .val catalog } q2 = .ok r2 ∧
      r2.Sublist r1 ∧
      (toLowerCase "" = "" →
        ∃ r0, searchProjects toLowerCase { projects := .val catalog } "" = .ok r0 ∧
          r1.Sublist r0) ∧
      mapE createProjectCard r1 = .ok c1 ∧
      mapE createProjectCard r2 = .ok c2 ∧
      c2.Sublist c1 ∧
      searchListener toLowerCase q1 { manager := { projects := .val catalog }, dom := dom } =
        .ok { manager := { projects := .val catalog },
              dom := if hasElement dom "all-projects"
                then setInnerHTML "all-projects" (join c1) dom else dom } ∧
      searchListener toLowerCase q2 { manager := { projects := .val catalog }, dom := dom } =
        .ok { manager := { projects := .val catalog },
              dom := if hasElement dom "all-projects"
                then setInnerHTML "all-projects" (join c2) dom else dom } := by
  have e1 := searchProjects_eq_filter toLowerCase catalog q1 h
  have e2 := searchProjects_eq_filter toLowerCase catalog q2 h
  have hsub : (catalog.filter fun r => decide (Matches toLowerCase q2 r)).Sublist
      (catalog.filter fun r => decide (Matches toLowerCase q1 r)) := by
    apply List.monotone_filter_right
    intro r hr
    exact decide_eq_true (matches_narrow toLowerCase q1 q2 hq r (of_decide_eq_true hr))
  obtain ⟨c1, hc1, -⟩ := mapE_ok_of_forall createProjectCard
    (catalog.filter fun r => decide (Matches toLowerCase q1 r)) (by
      intro r hr
      exact (createProjectCard_ok_iff r).2
        (technologies_of_wellShaped r (h r (List.mem_of_mem_filter hr))))
  obtain ⟨c2, hc2, hcsub⟩ := mapE_sublist createProjectCard hsub c1 hc1
  refine ⟨_, _, c1, c2, e1, e2, hsub, ?_, hc1, hc2, hcsub, ?_, ?_⟩
  · intro hempty
    refine ⟨_, searchProjects_eq_filter toLowerCase catalog "" h, ?_⟩
    apply List.monotone_filter_right
    intro r hr
    have h0 : IsSubstring (toLowerCase "") (toLowerCase q1) := by
      rw [hempty]
      exact isSubstring_empty _
    exact decide_eq_true (matches_narrow toLowerCase "" q1 h0 r (of_decide_eq_true hr))
  · simp only [searchListener, e1, hc1, World.assign]
    split <;> rfl
  · simp only [searchListener, e2, hc2, World.assign]
    split <;> rfl

theorem searchProjects_narrowing_witness :
    (∀ r ∈ exampleCatalog, r.wellShaped = true) ∧
    IsSubstring (asciiLower "BA") (asciiLower "baz") ∧
    searchProjects asciiLower { projects := .val exampleCatalog } "BA" =
      .ok [recordA, recordB] ∧
    searchProjects asciiLower { projects := .val exampleCatalog } "baz" = .ok [recordB] ∧
    ∃ r1 r2 c1 c2,
      searchProjects asciiLower { projects := .val exampleCatalog } "BA" = .ok r1 ∧
      searchProjects asciiLower { projects := .val exampleCatalog } "baz" = .ok r2 ∧
      r2.Sublist r1 ∧
      (asciiLower "" = "" →
        ∃ r0, searchProjects asciiLower { projects := .val exampleCatalog } "" = .ok r0 ∧
          r1.Sublist r0) ∧
      mapE createProjectCard r1 = .ok c1 ∧
      mapE createProjectCard r2 = .ok c2 ∧
      c2.Sublist c1 ∧
      searchListener asciiLower "BA"
          { manager := { projects := .val exampleCatalog }, dom := [("all-projects", "")] } =
        .ok { manager := { projects := .val exampleCatalog },
              dom := if hasElement [("all-projects", "")] "all-projects"
                then setInnerHTML "all-projects" (join c1) [("all-projects", "")]
                else [("all-projects", "")] } ∧
      searchListener asciiLower "baz"
          { manager := { projects := .val exampleCatalog }, dom := [("all-projects", "")] } =
        .ok { manager := { projects := .val exampleCatalog },
              dom := if hasElement [("all-projects", "")] "all-projects"
                then setInnerHTML "all-projects" (join c2) [("all-projects", "")]
                else [("all-projects", "")] } :=
  ⟨by decide, by decide, by decide, by decide,
    searchProjects_narrowing asciiLower exampleCatalog "BA" "baz" [("all-projects", "")]
      (by decide) (by decide)⟩

/-! ## `addProject` -/

/-- C9, as the code has it: `addProject(p)` on the catalog `L` leaves the
catalog `L` followed by `p`, for every `L` and `p` and whether or not
rendering throws: one record more, the records of `L` at their indices, `p`
last; it does not throw when every record has a list of technologies; and
when `L` and `p` are well-shaped every search afterwards returns the result
it returned before, followed by `p` exactly when `p` matches. -/
theorem addProject_append_only (toLowerCase : String → String) (L : List Project)
    (p : Project) (dom : Dom) :
    ∃ out, out = addProject p { manager := { projects := .val L }, dom := dom } ∧
      out.world.manager.projects = .val (L ++ [p]) ∧
      (L ++ [p]).length = L.length + 1 ∧
      (∀ i, i < L.length → (L ++ [p])[i]? = L[i]?) ∧
      (L ++ [p])[L.length]? = some p ∧
      ((∀ r ∈ L ++ [p], ∃ ts, r.technologies = .val ts) → out.thrown = none) ∧
      ((∀ r ∈ L, r.wellShaped = true) → p.wellShaped = true → ∀ q,
        ∃ before, searchProjects toLowerCase { projects := .val L } q = .ok before ∧
          searchProjects toLowerCase out.world.manager q =
            .ok (before ++ if Matches toLowerCase q p then [p] else [])) := by
  refine ⟨_, rfl, ?_, ?_, ?_, ?_, ?_, ?_⟩
  · rw [addProject_manager p _ L rfl]
  · simp
  · intro i hi
    exact List.getElem?_append_left hi
  · simp
  · intro ht
    exact addProject_not_thrown p _ L rfl ht
  · intro hL hp q
    refine ⟨_, searchProjects_eq_filter toLowerCase L q hL, ?_⟩
    rw [addProject_manager p _ L rfl]
    have hall : ∀ r ∈ L ++ [p], r.wellShaped = true := by
      intro r hr
      rcases List.mem_append.1 hr with h | h
      · exact hL r h
      · rw [List.mem_singleton.1 h]; exact hp
    rw [searchProjects_eq_filter toLowerCase (L ++ [p]) q hall, List.filter_append]
    congr 2
    by_cases hm : Matches toLowerCase q p <;> simp [List.filter_cons, hm]

theorem addProject_append_only_witness :
    (∀ r ∈ [recordA] ++ [recordB], ∃ ts, r.technologies = .val ts) ∧
    (∀ r ∈ [recordA], r.wellShaped = true) ∧ recordB.wellShaped = true ∧
    (addProject recordB
      { manager := { projects := .val [recordA] }, dom := [("all-projects", "")] }
      ).world.manager.projects = .val [recordA, recordB] ∧
    searchProjects asciiLower { projects := .val [recordA] } "go" = .ok [] ∧
    searchProjects asciiLower { projects := .val [recordA, recordB] } "go" = .ok [recordB] ∧
    ∃ out, out = addProject recordB
        { manager := { projects := .val [recordA] }, dom := [("all-projects", "")] } ∧
      out.world.manager.projects = .val ([recordA] ++ [recordB]) ∧
      ([recordA] ++ [recordB]).length = [recordA].length + 1 ∧
      (∀ i, i < [recordA].length → ([recordA] ++ [recordB])[i]? = [recordA][i]?) ∧
      ([recordA] ++ [recordB])[[recordA].length]? = some recordB ∧
      ((∀ r ∈ [recordA] ++ [recordB], ∃ ts, r.technologies = .val ts) → out.thrown = none) ∧
      ((∀ r ∈ [recordA], r.wellShaped = true) → recordB.wellShaped = true → ∀ q,
        ∃ before, searchProjects asciiLower { projects := .val [recordA] } q = .ok before ∧
          searchProjects asciiLower out.world.manager q =
            .ok (before ++ if Matches asciiLower q recordB then [recordB] else [])) :=
  ⟨by simp [recordA, recordB], by decide, by decide, by decide, by decide, by decide,
    addProject_append_only asciiLower [recordA] recordB [("all-projects", "")]⟩

/-- C9 as stated fails in its sentence on searching: after the append of a
record without `description` to the catalog `[b]`, the query `zzz`, which
returned the empty result before, throws a `TypeError`; it does not return
the previous result followed or not by the new record. The append itself has
taken place. -/
theorem addProject_then_search_throws :
    noDescriptionRecord.description = .undefined ∧
    searchProjects asciiLower { projects := .val [recordB] } "zzz" = .ok [] ∧
    (addProject noDescriptionRecord
      { manager := { projects := .val [recordB] }, dom := [] }) =
      { world := { manager := { projects := .val [recordB, noDescriptionRecord] }, dom := [] },
        thrown := none } ∧
    searchProjects asciiLower
      (addProject noDescriptionRecord
        { manager := { projects := .val [recordB] }, dom := [] }).world.manager "zzz" =
      .error .typeError :=
  ⟨rfl, by decide, by decide, by decide⟩

/-! ## `renderFeaturedProjects` -/

/-- C4, as the code has it: for every catalog whose featured records each hold
a list of technologies, when the container `featured-projects` exists,
`renderFeaturedProjects` assigns to it the concatenation, in catalog order, of
the cards of exactly the records with `featured = true` (as many cards as
featured records), and leaves the catalog and the other elements as they are;
when the container does not exist the world is unchanged, whatever the
catalog. -/
theorem renderFeaturedProjects_featured_cards (catalog : List Project) (dom : Dom)
    (ht : ∀ r ∈ catalog, r.featured = .val true → ∃ ts, r.technologies = .val ts) :
    ∃ cards,
      List.Forall₂ (fun r card => createProjectCard r = .ok card)
        (catalog.filter fun r => decide (r.featured = .val true)) cards ∧
      cards.length = catalog.countP (fun r => decide (r.featured = .val true)) ∧
      (hasElement dom "featured-projects" = true →
        ∃ w1, renderFeaturedProjects { manager := { projects := .val catalog }, dom := dom } =
            .ok w1 ∧
          w1.manager = { projects := .val catalog } ∧
          w1.dom = setInnerHTML "featured-projects" (join cards) dom ∧
          innerHTML w1.dom "featured-projects" = some (join cards) ∧
          (∀ id, id ≠ "featured-projects" → innerHTML w1.dom id = innerHTML dom id)) ∧
      (hasElement dom "featured-projects" = false →
        ∀ manager, renderFeaturedProjects { manager := manager, dom := dom } =
          .ok { manager := manager, dom := dom }) := by
  have hfun : (fun r : Project => decide (r.featured = .val true)) =
      fun r => r.featured.truthyBool := by
    funext r
    rw [Bool.eq_iff_iff, decide_eq_true_iff, truthyBool_iff]
  obtain ⟨cards, hc, hr⟩ := renderFeaturedProjects_ok
    { manager := { projects := .val catalog }, dom := dom } catalog rfl
    (fun r hr hf => ht r hr ((truthyBool_iff _).1 hf))
  have hlen := (mapE_forall₂ _ _ cards hc).length_eq
  refine ⟨cards, ?_, ?_, ?_, ?_⟩
  · rw [hfun]
    exact mapE_forall₂ _ _ cards hc
  · rw [hfun, List.countP_eq_length_filter]
    exact hlen.symm
  · intro hex
    simp only [hex, if_true] at hr
    refine ⟨_, hr, rfl, rfl, ?_, ?_⟩
    · exact innerHTML_setInnerHTML_same _ _ _ hex
    · intro id hid
      exact innerHTML_setInnerHTML_other _ _ _ _ hid
  · intro hex manager
    simp [renderFeaturedProjects, hex]

theorem renderFeaturedProjects_featured_cards_witness :
    (∀ r ∈ exampleCatalog, r.featured = .val true → ∃ ts, r.technologies = .val ts) ∧
    (∃ card, createProjectCard recordA = .ok card ∧
      renderFeaturedProjects
          { manager := { projects := .val exampleCatalog }, dom := [("featured-projects", "")] } =
        .ok { manager := { projects := .val exampleCatalog },
              dom := [("featured-projects", card)] }) ∧
    ∃ cards,
      List.Forall₂ (fun r card => createProjectCard r = .ok card)
        (exampleCatalog.filter fun r => decide (r.featured = .val true)) cards ∧
      cards.length = exampleCatalog.countP (fun r => decide (r.featured = .val true)) ∧
      (hasElement [("featured-projects", "")] "featured-projects" = true →
        ∃ w1, renderFeaturedProjects
            { manager := { projects := .val exampleCatalog },
              dom := [("featured-projects", "")] } = .ok w1 ∧
          w1.manager = { projects := .val exampleCatalog } ∧
          w1.dom = setInnerHTML "featured-projects" (join cards) [("featured-projects", "")] ∧
          innerHTML w1.dom "featured-projects" = some (join cards) ∧
          (∀ id, id ≠ "featured-projects" →
            innerHTML w1.dom id = innerHTML [("featured-projects", "")] id)) ∧
      (hasElement [("featured-projects", "")] "featured-projects" = false →
        ∀ manager, renderFeaturedProjects
            { manager := manager, dom := [("featured-projects", "")] } =
          .ok { manager := manager, dom := [("featured-projects", "")] }) :=
  ⟨by simp [exampleCatalog, recordA, recordB], ⟨_, rfl, rfl⟩,
    renderFeaturedProjects_featured_cards exampleCatalog [("featured-projects", "")]
      (by simp [exampleCatalog, recordA, recordB])⟩

/-- C4 as stated fails: over the catalog of record `b` and a featured record
without `technologies`, with the container present, `renderFeaturedProjects`
throws a `TypeError` while building the card and assigns nothing: the
container does not receive the cards of the featured records. -/
theorem renderFeaturedProjects_featured_without_technologies :
    noTechnologiesRecord.featured = .val true ∧
    noTechnologiesRecord.technologies = .undefined ∧
    hasElement [("featured-projects", "before")] "featured-projects" = true ∧
    renderFeaturedProjects
      { manager := { projects := .val [recordB, noTechnologiesRecord] },
        dom := [("featured-projects", "before")] } = .error .typeError :=
  ⟨rfl, rfl, by decide, by decide⟩

/-! ## `createProjectCard` -/

theorem demoAnchor_ne_empty (url : String) : demoAnchor url ≠ "" := by
  intro h
  have h1 := congrArg String.length h
  simp only [demoAnchor, String.length_append] at h1
  have h2 : "<a href=\"".length = 9 := by decide
  have h3 : "".length = 0 := by decide
  omega

theorem githubAnchor_ne_empty (url : String) : githubAnchor url ≠ "" := by
  intro h
  have h1 := congrArg String.length h
  simp only [githubAnchor, String.length_append] at h1
  have h2 : "<a href=\"".length = 9 := by decide
  have h3 : "".length = 0 := by decide
  omega

theorem truthyStr_iff (f : JSField String) :
    f.truthyStr = true ↔ ∃ url, f = .val url ∧ url ≠ "" := by
  cases f <;> simp [JSField.truthyStr]

theorem demoLink_ne_empty_iff (r : Project) :
    demoLink r ≠ "" ↔ ∃ url, r.demo_url = .val url ∧ url ≠ "" := by
  rw [← truthyStr_iff]
  unfold demoLink
  cases h : r.demo_url.truthyStr
  · simp
  · simpa using demoAnchor_ne_empty _

theorem githubLink_ne_empty_iff (r : Project) :
    githubLink r ≠ "" ↔ ∃ url, r.github_url = .val url ∧ url ≠ "" := by
  rw [← truthyStr_iff]
  unfold githubLink
  cases h : r.github_url.truthyStr
  · simp
  · simpa using githubAnchor_ne_empty _

/-- C3, as the code has it: the demo link of the card is the demo anchor when
`demo_url` holds a non-empty string and is omitted otherwise (field missing,
`null`, or the empty string); the repository link follows `github_url` in the
same way; each link depends on its own field only, and both sit in the link
block of the card. -/
theorem createProjectCard_links (r : Project) :
    (demoLink r ≠ "" ↔ ∃ url, r.demo_url = .val url ∧ url ≠ "") ∧
    (∀ url, r.demo_url = .val url → url ≠ "" → demoLink r = demoAnchor url) ∧
    (githubLink r ≠ "" ↔ ∃ url, r.github_url = .val url ∧ url ≠ "") ∧
    (∀ url, r.github_url = .val url → url ≠ "" → githubLink r = githubAnchor url) ∧
    (∀ ts, r.technologies = .val ts →
      createProjectCard r = .ok (cardTemplate r.category.toStr (imageHtml r) r.title.toStr
        r.description.toStr (join (ts.map techTag)) (demoLink r) (githubLink r))) := by
  refine ⟨demoLink_ne_empty_iff r, ?_, githubLink_ne_empty_iff r, ?_, ?_⟩
  · intro url h hne
    simp [demoLink, h, JSField.truthyStr, JSField.toStr, hne]
  · intro url h hne
    simp [githubLink, h, JSField.truthyStr, JSField.toStr, hne]
  · intro ts h
    simp [createProjectCard, h]

theorem createProjectCard_links_witness :
    (demoLink fallbackProject = demoAnchor "#" ∧ githubLink fallbackProject = githubAnchor "#") ∧
    (demoLink onlyDemoRecord = demoAnchor "https://demo.example" ∧
      githubLink onlyDemoRecord = "") ∧
    (demoLink onlyRepoRecord = "" ∧
      githubLink onlyRepoRecord = githubAnchor "https://code.example") ∧
    (demoLink recordA = "" ∧ githubLink recordA = "") ∧
    (demoLink fallbackProject ≠ "" ↔ ∃ url, fallbackProject.demo_url = .val url ∧ url ≠ "") ∧
    (∀ url, fallbackProject.demo_url = .val url → url ≠ "" →
      demoLink fallbackProject = demoAnchor url) ∧
    (githubLink fallbackProject ≠ "" ↔
      ∃ url, fallbackProject.github_url = .val url ∧ url ≠ "") ∧
    (∀ url, fallbackProject.github_url = .val url → url ≠ "" →
      githubLink fallbackProject = githubAnchor url) ∧
    (∀ ts, fallbackProject.technologies = .val ts →
      createProjectCard fallbackProject = .ok (cardTemplate fallbackProject.category.toStr
        (imageHtml fallbackProject) fallbackProject.title.toStr
        fallbackProject.description.toStr (join (ts.map techTag)) (demoLink fallbackProject)
        (githubLink fallbackProject))) :=
  ⟨⟨rfl, rfl⟩, ⟨rfl, rfl⟩, ⟨rfl, rfl⟩, ⟨rfl, rfl⟩, createProjectCard_links fallbackProject⟩

/-- C3 as stated fails: a record whose `demo_url` and `github_url` hold the
empty string has both fields present, and its card carries neither link: it is
the card of the same record without the two fields. -/
theorem createProjectCard_empty_url_no_link :
    emptyUrlRecord.demo_url = .val "" ∧ emptyUrlRecord.github_url = .val "" ∧
    demoLink emptyUrlRecord = "" ∧ githubLink emptyUrlRecord = "" ∧
    recordA.demo_url = .undefined ∧ recordA.github_url = .undefined ∧
    createProjectCard emptyUrlRecord = createProjectCard recordA :=
  ⟨rfl, rfl, rfl, rfl, rfl, rfl, rfl⟩

/-- C8, as the code has it: for a record that holds a list of technologies,
whichever of the other fields are missing, `createProjectCard` returns a card:
a missing `title`, `description` or `category` is rendered as the text
`undefined`, a missing `image` as the placeholder, a missing `demo_url` or
`github_url` as no link; and `renderAllProjects` and `renderFeaturedProjects`
do not throw over a catalog in which every record holds a list of
technologies. -/
theorem createProjectCard_missing_fields (r : Project) (ts : List String)
    (h : r.technologies = .val ts) :
    (∃ category image title description demo github,
      createProjectCard r = .ok (cardTemplate category image title description
        (join (ts.map techTag)) demo github) ∧
      (r.category = .undefined → category = "undefined") ∧
      (r.image = .undefined →
        image = "<div class=\"project-image\"><i class=\"fas fa-code\"></i></div>") ∧
      (r.title = .undefined → title = "undefined") ∧
      (r.description = .undefined → description = "undefined") ∧
      (r.demo_url = .undefined → demo = "") ∧
      (r.github_url = .undefined → github = "")) ∧
    (∀ (catalog : List Project) (dom : Dom) (containerId : Option String),
      r ∈ catalog → (∀ x ∈ catalog, ∃ xs, x.technologies = .val xs) →
      (∃ w1, renderAllProjects containerId
        { manager := { projects := .val catalog }, dom := dom } = .ok w1) ∧
      (∃ w1, renderFeaturedProjects
        { manager := { projects := .val catalog }, dom := dom } = .ok w1)) := by
  refine ⟨?_, ?_⟩
  · refine ⟨r.category.toStr, imageHtml r, r.title.toStr, r.description.toStr, demoLink r,
      githubLink r, ?_, ?_, ?_, ?_, ?_, ?_, ?_⟩
    · simp [createProjectCard, h]
    · intro hc; rw [hc]; rfl
    · intro hc; simp [imageHtml, hc, JSField.truthyStr]
    · intro hc; rw [hc]; rfl
    · intro hc; rw [hc]; rfl
    · intro hc; simp [demoLink, hc, JSField.truthyStr]
    · intro hc; simp [githubLink, hc, JSField.truthyStr]
  · intro catalog dom containerId _ hts
    obtain ⟨c1, -, h1⟩ := renderAllProjects_ok containerId
      { manager := { projects := .val catalog }, dom := dom } catalog rfl hts
    obtain ⟨c2, -, h2⟩ := renderFeaturedProjects_ok
      { manager := { projects := .val catalog }, dom := dom } catalog rfl
      (fun x hx _ => hts x hx)
    exact ⟨⟨_, h1⟩, ⟨_, h2⟩⟩

theorem createProjectCard_missing_fields_witness :
    bareRecord.technologies = .val ["JS"] ∧
    createProjectCard bareRecord =
      .ok (cardTemplate "undefined"
        "<div class=\"project-image\"><i class=\"fas fa-code\"></i></div>"
        "undefined" "undefined" "<span class=\"tech-tag\">JS</span>" "" "") ∧
    (∃ w1, renderAllProjects none
      { manager := { projects := .val [bareRecord] }, dom := [("all-projects", "")] } =
        .ok w1) ∧
    (∃ w1, renderFeaturedProjects
      { manager := { projects := .val [bareRecord] }, dom := [("all-projects", "")] } =
        .ok w1) :=
  ⟨rfl, rfl, (createProjectCard_missing_fields bareRecord ["JS"] rfl).2 [bareRecord]
    [("all-projects", "")] none (by simp) (by simp [bareRecord])⟩

/-- C8 as stated fails: for a record from which only `technologies` is missing,
`createProjectCard` throws a `TypeError`, and so do `renderAllProjects` and
`renderFeaturedProjects` over a catalog that contains it. -/
theorem createProjectCard_missing_technologies_throws :
    noTechnologiesRecord.technologies = .undefined ∧
    createProjectCard noTechnologiesRecord = .error .typeError ∧
    renderAllProjects none
      { manager := { projects := .val [recordB, noTechnologiesRecord] },
        dom := [("all-projects", "")] } = .error .typeError ∧
    renderFeaturedProjects
      { manager := { projects := .val [recordB, noTechnologiesRecord] },
        dom := [("featured-projects", "")] } = .error .typeError :=
  ⟨rfl, rfl, rfl, rfl⟩

/-! ## `loadData` -/

/-- C6, as the code has it: `loadData` never throws. When the fetch is
rejected, the status is not a success, the body does not parse, or the body
parses to `null`, the catalog is the single fallback record `projet-demo`.
When the body parses to anything else, the catalog is whatever its property
`projects` holds, `undefined` when there is none: the content is not checked. -/
theorem loadData_fallback (self : ProjectManager) :
    (∀ fetched, ∃ self1, loadData fetched self = .ok self1) ∧
    (∀ reason, loadData (.rejected reason) self = .ok { projects := .val [fallbackProject] }) ∧
    (∀ json, loadData (.resolved { ok := false, json := json }) self =
      .ok { projects := .val [fallbackProject] }) ∧
    (∀ e, loadData (.resolved { ok := true, json := .error e }) self =
      .ok { projects := .val [fallbackProject] }) ∧
    loadData (.resolved { ok := true, json := .ok .null }) self =
      .ok { projects := .val [fallbackProject] } ∧
    loadData (.resolved { ok := true, json := .ok .scalar }) self =
      .ok { projects := .undefined } ∧
    (∀ projects, loadData (.resolved { ok := true, json := .ok (.object projects) }) self =
      .ok { projects := projects }) ∧
    [fallbackProject].length = 1 ∧ fallbackProject.id = .val "projet-demo" := by
  refine ⟨?_, ?_, ?_, ?_, rfl, rfl, ?_, rfl, rfl⟩
  · intro fetched
    unfold loadData
    split
    · exact ⟨_, rfl⟩
    · exact ⟨_, rfl⟩
  · intro reason; rfl
  · intro json; rfl
  · intro e; rfl
  · intro projects; rfl

/-- C6 as stated fails: a success response whose body parses to an object
without a property `projects`, or to a string, number, boolean or array, holds
no sequence of records, and `loadData` leaves the catalog `undefined`, not the
fallback record. -/
theorem loadData_unchecked_body :
    loadData (.resolved { ok := true, json := .ok (.object .undefined) })
      { projects := .val [] } = .ok { projects := .undefined } ∧
    loadData (.resolved { ok := true, json := .ok .scalar })
      { projects := .val [] } = .ok { projects := .undefined } ∧
    (.ok { projects := .undefined } : Except JSError ProjectManager) ≠
      .ok { projects := .val [fallbackProject] } :=
  ⟨rfl, rfl, by simp⟩

/-! ## `createCategoryFilters` -/

theorem foldl_setAdd {α : Type} [DecidableEq α] (xs acc : List α) :
    xs.foldl setAdd acc = acc ++ (firstOccurrences xs).filter fun y => decide (y ∉ acc) := by
  induction xs generalizing acc with
  | nil => simp [firstOccurrences]
  | cons x xs ih =>
    rw [List.foldl_cons, ih, firstOccurrences]
    by_cases hx : x ∈ acc
    · simp only [setAdd, hx, if_true, List.filter_cons, decide_not, decide_True, Bool.not_true,
        Bool.false_eq_true, if_false, List.filter_filter]
      congr 1
      apply List.filter_congr
      intro y _
      by_cases hy : y ∈ acc
      · simp [hy]
      · have : y ≠ x := fun c => hy (c ▸ hx)
        simp [hy, this]
    · simp only [setAdd, hx, if_false, List.filter_cons, decide_not, decide_False, Bool.not_false,
        if_true, List.filter_filter, List.append_assoc, List.singleton_append]
      congr 2
      apply List.filter_congr
      intro y _
      by_cases hy : y ∈ acc
      · simp [hy]
      · by_cases hyx : y = x <;> simp [hy, hyx]

theorem newSet_eq_firstOccurrences {α : Type} [DecidableEq α] (xs : List α) :
    newSet xs = firstOccurrences xs := by
  unfold newSet
  rw [foldl_setAdd]
  simp

theorem mem_firstOccurrences {α : Type} [DecidableEq α] (xs : List α) (a : α) :
    a ∈ firstOccurrences xs ↔ a ∈ xs := by
  induction xs with
  | nil => simp [firstOccurrences]
  | cons x xs ih =>
    simp only [firstOccurrences, List.mem_cons, List.mem_filter, ih, decide_eq_true_iff]
    by_cases h : a = x <;> simp [h]

theorem nodup_firstOccurrences {α : Type} [DecidableEq α] (xs : List α) :
    (firstOccurrences xs).Nodup := by
  induction xs with
  | nil => simp [firstOccurrences]
  | cons x xs ih =>
    simp only [firstOccurrences, List.nodup_cons, List.mem_filter, decide_eq_true_iff]
    exact ⟨fun h => h.2 rfl, ih.filter _⟩

/-- C7, as the code has it: the list of filter values is `"all"` followed by
the distinct categories of the catalog in order of first occurrence; the
entries after the first are pairwise distinct and are exactly the categories
of the records; the whole list is free of repetition exactly when no record
has the category `"all"`; and the filter bar receives one button per entry. -/
theorem categories_first_occurrence_order (catalog : List Project) :
    ∃ rest, categories { projects := .val catalog } = .ok (.val "all" :: rest) ∧
      rest = firstOccurrences (catalog.map fun r => r.category) ∧
      rest.Nodup ∧
      (∀ c, c ∈ rest ↔ ∃ r ∈ catalog, r.category = c) ∧
      ((JSField.val "all" :: rest).Nodup ↔ ∀ r ∈ catalog, r.category ≠ .val "all") ∧
      (∀ dom, hasElement dom "category-filters" = true →
        createCategoryFilters { manager := { projects := .val catalog }, dom := dom } =
          .ok { manager := { projects := .val catalog },
                dom := setInnerHTML "category-filters"
                  (join ((JSField.val "all" :: rest).map filterButton)) dom }) := by
  have hmem : ∀ c, c ∈ firstOccurrences (catalog.map fun r => r.category) ↔
      ∃ r ∈ catalog, r.category = c := by
    intro c
    rw [mem_firstOccurrences, List.mem_map]
  refine ⟨_, ?_, rfl, nodup_firstOccurrences _, hmem, ?_, ?_⟩
  · simp only [categories, newSet_eq_firstOccurrences]
  · rw [List.nodup_cons, hmem]
    constructor
    · intro h r hr hc
      exact h.1 ⟨r, hr, hc⟩
    · intro h
      exact ⟨fun ⟨r, hr, hc⟩ => h r hr hc, nodup_firstOccurrences _⟩
  · intro dom hd
    simp only [createCategoryFilters, categories, newSet_eq_firstOccurrences, hd, if_true,
      World.assign]

/-- C7 as stated fails: with a record of category `"all"` in the catalog the
value `"all"` stands twice in the list of filter values. -/
theorem categories_all_twice :
    allCategoryRecord.category = .val "all" ∧
    categories { projects := .val [allCategoryRecord, recordB] } =
      .ok [.val "all", .val "all", .val "Backend"] ∧
    ¬ ([.val "all", .val "all", .val "Backend"] : List (JSField String)).Nodup :=
  ⟨rfl, by decide, by decide⟩

/-! ## `filterProjects` -/

/-- C5: after `filterProjects(c)` the cards are the same cards in the same
order with the same category attributes and content; a card is shown
(`display` is `block`) exactly when `c` is `"all"` or its category attribute is
`c`, and is hidden (`display` is `none`) otherwise. So `"all"` shows every
card, a category other than `"all"` shows the cards that carry it and hides the
rest, hiding every card when none carries it; the manager is not changed. -/
theorem filterProjects_shows_matching (self : ProjectManager) (c : String)
    (cards : List CardElement) :
    (filterProjects self (some c) cards).1 = self ∧
    List.Forall₂ (fun before after =>
        after.category = before.category ∧ after.content = before.content ∧
        (after.display = "block" ↔ (c = "all" ∨ before.category = some c)) ∧
        (after.display = "none" ↔ ¬ (c = "all" ∨ before.category = some c)))
      cards (filterProjects self (some c) cards).2 ∧
    (filterProjects self (some c) cards).2.length = cards.length ∧
    (c = "all" → ∀ card ∈ (filterProjects self (some c) cards).2, card.display = "block") ∧
    (c ≠ "all" → ∀ card ∈ (filterProjects self (some c) cards).2,
      (card.display = "block" ↔ card.category = some c) ∧
      (card.display = "none" ↔ card.category ≠ some c)) ∧
    (c ≠ "all" → (∀ card ∈ cards, card.category ≠ some c) →
      ∀ card ∈ (filterProjects self (some c) cards).2, card.display = "none") := by
  have hnb : ("none" : String) ≠ "block" := by decide
  have hbn : ("block" : String) ≠ "none" := by decide
  have key : ∀ card : CardElement,
      (if (c == "all" || card.category == some c) = true
        then { card with display := "block" } else { card with display := "none" }) =
      { card with display := if c = "all" ∨ card.category = some c then "block" else "none" } := by
    intro card
    by_cases h : c = "all" ∨ card.category = some c
    · have : (c == "all" || card.category == some c) = true := by simpa using h
      simp [this, h]
    · have : ¬ ((c == "all" || card.category == some c) = true) := by simpa using h
      simp [this, h]
  have hmap : (filterProjects self (some c) cards).2 = cards.map fun card =>
      { card with display := if c = "all" ∨ card.category = some c then "block" else "none" } := by
    simp only [filterProjects, Option.getD_some]
    exact List.map_congr_left fun card _ => key card
  refine ⟨rfl, ?_, ?_, ?_, ?_, ?_⟩
  · rw [hmap, List.forall₂_map_right_iff]
    apply List.forall₂_same.2
    intro card _
    by_cases h : c = "all" ∨ card.category = some c <;> simp [h, hnb, hbn]
  · rw [hmap, List.length_map]
  · intro hc card hcard
    rw [hmap, List.mem_map] at hcard
    obtain ⟨old, -, rfl⟩ := hcard
    simp [hc]
  · intro hc card hcard
    rw [hmap, List.mem_map] at hcard
    obtain ⟨old, -, rfl⟩ := hcard
    by_cases h : old.category = some c <;> simp [hc, h, hnb, hbn]
  · intro hc hnone card hcard
    rw [hmap, List.mem_map] at hcard
    obtain ⟨old, hold, rfl⟩ := hcard
    simp [hc, hnone old hold]

theorem filterProjects_shows_matching_witness :
    (filterProjects { projects := .val exampleCatalog } (some "Backend")
      [{ category := some "Frontend", display := "", content := "a" },
       { category := some "Backend", display := "", content := "b" }]).2 =
      [{ category := some "Frontend", display := "none", content := "a" },
       { category := some "Backend", display := "block", content := "b" }] ∧
    (filterProjects { projects := .val exampleCatalog } (some "backend")
      [{ category := some "Frontend", display := "", content := "a" },
       { category := some "Backend", display := "", content := "b" }]).2 =
      [{ category := some "Frontend", display := "none", content := "a" },
       { category := some "Backend", display := "none", content := "b" }] ∧
    (filterProjects { projects := .val exampleCatalog } (some "all")
      [{ category := some "Frontend", display := "none", content := "a" },
       { category := some "Backend", display := "", content := "b" }]).2.length = 2 :=
  ⟨by decide, by decide,
    (filterProjects_shows_matching { projects := .val exampleCatalog } "all"
      [{ category := some "Frontend", display := "none", content := "a" },
       { category := some "Backend", display := "", content := "b" }]).2.2.1⟩

end Portfolio
